import Mathlib

/-
Verification of the durable-state and task-lifecycle core of the
JellyfinCommunity Discord bot.

The JavaScript sources are shallowly embedded: JS Map objects and the
filesystem directory become association lists, timestamps become integers,
fallible syscalls become explicit fault flags, and the single-threaded
event loop becomes an explicit event-trace step function.
-/

namespace DiscordBot

/-! ### Association lists (model of JS `Map` and of a flat filesystem) -/

def alookup {κ ν : Type} [DecidableEq κ] : List (κ × ν) → κ → Option ν
  | [], _ => none
  | e :: rest, k => if e.1 = k then some e.2 else alookup rest k

def aset {κ ν : Type} [DecidableEq κ] (l : List (κ × ν)) (k : κ) (v : ν) : List (κ × ν) :=
  (k, v) :: l.filter (fun e => decide (e.1 ≠ k))

def adel {κ ν : Type} [DecidableEq κ] (l : List (κ × ν)) (k : κ) : List (κ × ν) :=
  l.filter (fun e => decide (e.1 ≠ k))

theorem alookup_filter_ne {κ ν : Type} [DecidableEq κ] (l : List (κ × ν)) (k k' : κ)
    (h : k' ≠ k) : alookup (l.filter (fun e => decide (e.1 ≠ k))) k' = alookup l k' := by
  simp only [decide_not]
  induction l with
  | nil => rfl
  | cons e rest ih =>
    rw [List.filter_cons]
    by_cases he : e.1 = k
    · have h1 : (!decide (e.1 = k)) = false := by simp [he]
      rw [h1]
      simp only [Bool.false_eq_true, if_false]
      rw [ih]
      have h2 : ¬ (e.1 = k') := by rw [he]; exact fun hk => h hk.symm
      show alookup rest k' = if e.1 = k' then some e.2 else alookup rest k'
      rw [if_neg h2]
    · have h1 : (!decide (e.1 = k)) = true := by simp [he]
      rw [h1]
      simp only [if_true]
      show (if e.1 = k' then some e.2 else alookup (List.filter (fun e => !decide (e.1 = k)) rest) k')
          = if e.1 = k' then some e.2 else alookup rest k'
      rw [ih]

theorem alookup_aset_self {κ ν : Type} [DecidableEq κ] (l : List (κ × ν)) (k : κ) (v : ν) :
    alookup (aset l k v) k = some v := by
  simp [aset, alookup]

theorem alookup_aset_ne {κ ν : Type} [DecidableEq κ] (l : List (κ × ν)) (k k' : κ) (v : ν)
    (h : k' ≠ k) : alookup (aset l k v) k' = alookup l k' := by
  have hk : ¬ (k = k') := fun hk => h hk.symm
  show (if k = k' then some v else alookup (l.filter (fun e => decide (e.1 ≠ k))) k')
      = alookup l k'
  rw [if_neg hk, alookup_filter_ne l k k' h]

theorem alookup_adel_self {κ ν : Type} [DecidableEq κ] (l : List (κ × ν)) (k : κ) :
    alookup (adel l k) k = none := by
  simp only [adel, decide_not]
  induction l with
  | nil => rfl
  | cons e rest ih =>
    rw [List.filter_cons]
    by_cases he : e.1 = k
    · have h1 : (!decide (e.1 = k)) = false := by simp [he]
      rw [h1]
      simp only [Bool.false_eq_true, if_false]
      exact ih
    · have h1 : (!decide (e.1 = k)) = true := by simp [he]
      rw [h1]
      simp only [if_true]
      show (if e.1 = k then some e.2 else
          alookup (List.filter (fun e => !decide (e.1 = k)) rest) k) = none
      rw [if_neg he, ih]

theorem alookup_adel_ne {κ ν : Type} [DecidableEq κ] (l : List (κ × ν)) (k k' : κ)
    (h : k' ≠ k) : alookup (adel l k) k' = alookup l k' :=
  alookup_filter_ne l k k' h

/-! ### Path distinctness facts -/

theorem self_ne_append (p s : String) (h : 0 < s.length) : p ≠ p ++ s := by
  intro he
  have hl := congrArg String.length he
  rw [String.length_append] at hl
  omega

theorem append_ne_append (p s t : String) (h : s ≠ t) : p ++ s ≠ p ++ t := by
  intro he
  apply h
  have hd : (p ++ s).data = (p ++ t).data := congrArg String.data he
  rw [String.data_append, String.data_append] at hd
  exact String.ext (List.append_cancel_left hd)

/-! ### Durable Store: `src/utils/atomicJson.js` -/

/-- The filesystem directory as an association list from path to contents. -/
abbrev FS := List (String × String)

/-- Fault injection for the three fallible filesystem steps of an atomic write:
the temp-file write, the backup copy, and the final rename. -/
structure WriteFaults where
  failTemp : Bool
  failCopy : Bool
  failRename : Bool

/-- Shallow embedding of the async `writeJsonAtomic` (src/utils/atomicJson.js).
`jsonData` is the already-serialized document.  Returns `(succeeded, fs)`.
A `true` fault flag makes the corresponding filesystem call throw.  The
`access`/`copyFile` pair sits in an inner `try` whose `catch` swallows every
error, so a backup-copy fault skips the backup and the write continues to
the rename; only temp-write and rename faults reach the outer `catch`,
which unlinks the temp file (ignoring errors) and rethrows — the `false`
result. -/
def writeJsonAtomic (f : WriteFaults) (filePath jsonData : String) (fs : FS) : Bool × FS :=
  let tempPath := filePath ++ ".tmp"
  let backupPath := filePath ++ ".bak"
  if f.failTemp then
    (false, adel fs tempPath)
  else
    let fs1 := aset fs tempPath jsonData
    let fs2 :=
      match alookup fs filePath with
      | some old => if f.failCopy then fs1 else aset fs1 backupPath old
      | none => fs1
    if f.failRename then
      (false, adel fs2 tempPath)
    else
      (true, adel (aset fs2 filePath jsonData) tempPath)

/-- Shallow embedding of `writeJsonAtomicSync` (src/utils/atomicJson.js): the
same temp/backup/rename sequence, but with no inner `try` — `existsSync`
guards the backup copy and a `copyFileSync` failure propagates to the outer
`catch`, which unlinks the temp file and rethrows. -/
def writeJsonAtomicSync (f : WriteFaults) (filePath jsonData : String) (fs : FS) : Bool × FS :=
  let tempPath := filePath ++ ".tmp"
  let backupPath := filePath ++ ".bak"
  if f.failTemp then
    (false, adel fs tempPath)
  else
    let fs1 := aset fs tempPath jsonData
    match alookup fs filePath with
    | some old =>
      if f.failCopy then
        (false, adel fs1 tempPath)
      else
        let fs2 := aset fs1 backupPath old
        if f.failRename then
          (false, adel fs2 tempPath)
        else
          (true, adel (aset fs2 filePath jsonData) tempPath)
    | none =>
      if f.failRename then
        (false, adel fs1 tempPath)
      else
        (true, adel (aset fs1 filePath jsonData) tempPath)

/-- Fault injection for a recovering read: a non-ENOENT I/O failure while
reading the main file, one while reading the backup, and the faults of the
best-effort restore write. -/
structure ReadFaults where
  mainIo : Bool
  bakIo : Bool
  restore : WriteFaults

/-- Shallow embedding of `readJsonWithRecovery` (src/utils/atomicJson.js).
`parse` models `JSON.parse` (`none` = SyntaxError), `serialize` models
`JSON.stringify`.  A missing file and an unparsable file both send the
reader to the backup; a parsed backup is opportunistically restored to the
main path (failures swallowed); if the backup also fails the default is
returned.  The function is total: it never raises. -/
def readJsonWithRecovery {V : Type} (parse : String → Option V) (serialize : V → String)
    (rf : ReadFaults) (filePath : String) (defaultValue : V) (fs : FS) : V × FS :=
  let backupPath := filePath ++ ".bak"
  match (if rf.mainIo then none else (alookup fs filePath).bind parse) with
  | some v => (v, fs)
  | none =>
    match (if rf.bakIo then none else (alookup fs backupPath).bind parse) with
    | some v => (v, (writeJsonAtomic rf.restore filePath (serialize v) fs).2)
    | none => (defaultValue, fs)

/-- Shallow embedding of `readJsonWithRecoverySync` (src/utils/atomicJson.js);
identical recovery structure, restoring via the synchronous atomic write. -/
def readJsonWithRecoverySync {V : Type} (parse : String → Option V) (serialize : V → String)
    (rf : ReadFaults) (filePath : String) (defaultValue : V) (fs : FS) : V × FS :=
  let backupPath := filePath ++ ".bak"
  match (if rf.mainIo then none else (alookup fs filePath).bind parse) with
  | some v => (v, fs)
  | none =>
    match (if rf.bakIo then none else (alookup fs backupPath).bind parse) with
    | some v => (v, (writeJsonAtomicSync rf.restore filePath (serialize v) fs).2)
    | none => (defaultValue, fs)

/-- C1 counterexample: with an existing file at `"f"` and a fault on the
backup copy — a failure occurring after the temp file was created — the
async `writeJsonAtomic` surfaces no error: it succeeds, replaces the file
at the path, and leaves no backup of the old contents; the sync variant
under the same fault aborts and leaves the path unchanged, so the two
variants do not behave identically as the claim asserts. -/
theorem writeJsonAtomic_copyFault_counterexample :
    (writeJsonAtomic ⟨false, true, false⟩ "f" "new" [("f", "old")]).1 = true ∧
    alookup (writeJsonAtomic ⟨false, true, false⟩ "f" "new" [("f", "old")]).2 "f"
        = some "new" ∧
    alookup (writeJsonAtomic ⟨false, true, false⟩ "f" "new" [("f", "old")]).2 ("f" ++ ".bak")
        = none ∧
    (writeJsonAtomicSync ⟨false, true, false⟩ "f" "new" [("f", "old")]).1 = false ∧
    alookup (writeJsonAtomicSync ⟨false, true, false⟩ "f" "new" [("f", "old")]).2 "f"
        = some "old" := by
  decide

/-- C1 amended: the sync `writeJsonAtomicSync` behaves as the claim states —
temp-write, backup-copy of any existing file, atomic rename; on success the
target holds the new value, the temp file is gone and the backup holds the
previous contents; on any failure after the temp file is created the temp
file is removed before the error surfaces and the path is unchanged.  The
async `writeJsonAtomic` behaves the same for temp-write and rename faults,
but its inner catch swallows a backup-copy failure: the write then succeeds
— it never fails because of the copy — with the previous backup left in
place (stale or absent) instead of a copy of the old contents. -/
theorem writeJsonAtomic_spec_amended (f : WriteFaults) (p data : String) (fs : FS) :
    ((writeJsonAtomic f p data fs).1 = (!f.failTemp && !f.failRename)) ∧
    ((writeJsonAtomic f p data fs).1 = true →
      alookup (writeJsonAtomic f p data fs).2 p = some data ∧
      alookup (writeJsonAtomic f p data fs).2 (p ++ ".tmp") = none ∧
      (f.failCopy = false → ∀ old, alookup fs p = some old →
        alookup (writeJsonAtomic f p data fs).2 (p ++ ".bak") = some old) ∧
      (f.failCopy = true →
        alookup (writeJsonAtomic f p data fs).2 (p ++ ".bak") = alookup fs (p ++ ".bak"))) ∧
    ((writeJsonAtomic f p data fs).1 = false →
      alookup (writeJsonAtomic f p data fs).2 p = alookup fs p ∧
      alookup (writeJsonAtomic f p data fs).2 (p ++ ".tmp") = none) ∧
    ((writeJsonAtomicSync f p data fs).1 = true →
      alookup (writeJsonAtomicSync f p data fs).2 p = some data ∧
      alookup (writeJsonAtomicSync f p data fs).2 (p ++ ".tmp") = none ∧
      (∀ old, alookup fs p = some old →
        alookup (writeJsonAtomicSync f p data fs).2 (p ++ ".bak") = some old)) ∧
    ((writeJsonAtomicSync f p data fs).1 = false →
      alookup (writeJsonAtomicSync f p data fs).2 p = alookup fs p ∧
      alookup (writeJsonAtomicSync f p data fs).2 (p ++ ".tmp") = none) := by
  have hptmp : p ≠ p ++ ".tmp" := self_ne_append p ".tmp" (by decide)
  have hpbak : p ≠ p ++ ".bak" := self_ne_append p ".bak" (by decide)
  have hbt : p ++ ".bak" ≠ p ++ ".tmp" := append_ne_append p ".bak" ".tmp" (by decide)
  have htmp' : p ++ ".tmp" ≠ p := fun h => hptmp h.symm
  have hbak' : p ++ ".bak" ≠ p := fun h => hpbak h.symm
  have htb : p ++ ".tmp" ≠ p ++ ".bak" := fun h => hbt h.symm
  obtain ⟨ft, fc, fr⟩ := f
  refine ⟨?_, ?_, ?_, ?_, ?_⟩ <;>
    cases ft <;> cases fc <;> cases fr <;> cases halk : alookup fs p <;>
      first
        | (intro hres <;>
            simp_all [writeJsonAtomic, writeJsonAtomicSync, alookup_adel_self,
              alookup_adel_ne, alookup_aset_self, alookup_aset_ne, hptmp, hpbak, hbt,
              htmp', hbak', htb])
        | simp_all [writeJsonAtomic, writeJsonAtomicSync]

/-- Witness for the amended C1 at concrete inputs: a fault-free async write
refreshes the backup, a copy-faulted async write succeeds with the backup
untouched, and a rename-faulted sync write leaves the path unchanged. -/
theorem writeJsonAtomic_spec_amended_witness :
    alookup (writeJsonAtomic ⟨false, false, false⟩ "f" "new" [("f", "old")]).2 ("f" ++ ".bak")
        = some "old" ∧
    alookup (writeJsonAtomic ⟨false, true, false⟩ "f" "new" [("f", "old")]).2 ("f" ++ ".bak")
        = alookup [("f", "old")] ("f" ++ ".bak") ∧
    alookup (writeJsonAtomicSync ⟨false, false, true⟩ "f" "new" [("f", "old")]).2 "f"
        = alookup [("f", "old")] "f" := by
  refine ⟨?_, ?_, ?_⟩
  · exact ((writeJsonAtomic_spec_amended ⟨false, false, false⟩ "f" "new"
      [("f", "old")]).2.1 (by decide)).2.2.1 rfl "old" (by decide)
  · exact ((writeJsonAtomic_spec_amended ⟨false, true, false⟩ "f" "new"
      [("f", "old")]).2.1 (by decide)).2.2.2 rfl
  · exact ((writeJsonAtomic_spec_amended ⟨false, false, true⟩ "f" "new"
      [("f", "old")]).2.2.2.2 (by decide)).1

/-- C2: a recovering read returns the parsed main file when it parses, else
the parsed backup when that parses, else the supplied default — uniformly
for missing files, parse failures, and injected I/O failures — and it never
raises (it is a total function; in particular a missing file yields the
default).  The synchronous variant returns the same value.  (Only the
returned value is claimed: under a fault inside the swallowed best-effort
restore the two variants can leave different filesystems.) -/
theorem readJsonWithRecovery_spec {V : Type} (parse : String → Option V)
    (serialize : V → String) (rf : ReadFaults) (p : String) (dflt : V) (fs : FS) :
    (readJsonWithRecovery parse serialize rf p dflt fs).1 =
      (Option.orElse (if rf.mainIo then none else (alookup fs p).bind parse)
        (fun _ => if rf.bakIo then none else (alookup fs (p ++ ".bak")).bind parse)).getD dflt ∧
    (readJsonWithRecoverySync parse serialize rf p dflt fs).1 =
      (Option.orElse (if rf.mainIo then none else (alookup fs p).bind parse)
        (fun _ => if rf.bakIo then none else (alookup fs (p ++ ".bak")).bind parse)).getD dflt ∧
    (alookup fs p = none → alookup fs (p ++ ".bak") = none →
      (readJsonWithRecovery parse serialize rf p dflt fs).1 = dflt ∧
      (readJsonWithRecoverySync parse serialize rf p dflt fs).1 = dflt) := by
  have hval : ∀ W : WriteFaults → String → String → FS → Bool × FS,
      (match (if rf.mainIo then none else (alookup fs p).bind parse) with
        | some v => ((v : V), fs)
        | none =>
          match (if rf.bakIo then none else (alookup fs (p ++ ".bak")).bind parse) with
          | some v => (v, (W rf.restore p (serialize v) fs).2)
          | none => (dflt, fs)).1 =
      (Option.orElse (if rf.mainIo then none else (alookup fs p).bind parse)
        (fun _ => if rf.bakIo then none else (alookup fs (p ++ ".bak")).bind parse)).getD
          dflt := by
    intro W
    cases hm : (if rf.mainIo then none else (alookup fs p).bind parse) with
    | some v => simp [hm]
    | none =>
      cases hb : (if rf.bakIo then none else (alookup fs (p ++ ".bak")).bind parse) with
      | some v => simp [hm, hb, Option.orElse]
      | none => simp [hm, hb, Option.orElse]
  have h1 : (readJsonWithRecovery parse serialize rf p dflt fs).1 =
      (Option.orElse (if rf.mainIo then none else (alookup fs p).bind parse)
        (fun _ => if rf.bakIo then none else (alookup fs (p ++ ".bak")).bind parse)).getD
          dflt := hval writeJsonAtomic
  have h2 : (readJsonWithRecoverySync parse serialize rf p dflt fs).1 =
      (Option.orElse (if rf.mainIo then none else (alookup fs p).bind parse)
        (fun _ => if rf.bakIo then none else (alookup fs (p ++ ".bak")).bind parse)).getD
          dflt := hval writeJsonAtomicSync
  refine ⟨h1, h2, ?_⟩
  intro hm hb
  rw [h1, h2]
  cases hio : rf.mainIo <;> cases hbo : rf.bakIo <;>
    simp [hm, hb, Option.orElse]

/-- Witness for C2 at concrete inputs: with no file and no backup present
both read variants return the caller-supplied default without raising. -/
theorem readJsonWithRecovery_spec_witness :
    (readJsonWithRecovery String.toNat? (fun n => toString n)
      ⟨false, false, ⟨false, false, false⟩⟩ "missing" 7 []).1 = 7 ∧
    (readJsonWithRecoverySync String.toNat? (fun n => toString n)
      ⟨false, false, ⟨false, false, false⟩⟩ "missing" 7 []).1 = 7 :=
  (readJsonWithRecovery_spec String.toNat? (fun n => toString n)
      ⟨false, false, ⟨false, false, false⟩⟩ "missing" 7 []).2.2 rfl rfl

/-! ### Exclusion Lock: `src/utils/asyncMutex.js`

`Mutex.runExclusive(fn)` performs `acquire`; then runs `fn` inside
`try ... finally release()`.  The single-threaded event loop is modelled as
an explicit event trace: `arrive t` is task `t` calling `acquire` (granting
immediately when unlocked, else appending `t` to the wait queue), and
`finish t ok` is the `fn` of task `t` completing (`ok = true`) or throwing
(`ok = false`); in both cases the `finally` block releases the lock —
handing it to the queue head, or unlocking — and the `Except`-style outcome
is propagated to the caller, recorded in `completions`. -/

inductive TStatus
  | idle
  | waiting
  | running
  | done
deriving DecidableEq

structure MutexSt where
  locked : Bool
  queue : List Nat
  status : Nat → TStatus
  granted : List Nat
  arrivals : List Nat
  completions : List (Nat × Bool)

inductive MEv
  | arrive (t : Nat)
  | finish (t : Nat) (ok : Bool)

def mstep (s : MutexSt) : MEv → MutexSt
  | MEv.arrive t =>
    if s.status t = TStatus.idle then
      if s.locked then
        { s with queue := s.queue ++ [t],
                 status := fun u => if u = t then TStatus.waiting else s.status u,
                 arrivals := s.arrivals ++ [t] }
      else
        { s with locked := true,
                 status := fun u => if u = t then TStatus.running else s.status u,
                 granted := s.granted ++ [t],
                 arrivals := s.arrivals ++ [t] }
    else s
  | MEv.finish t ok =>
    if s.status t = TStatus.running then
      let s1 := { s with
        status := fun u => if u = t then TStatus.done else s.status u,
        completions := s.completions ++ [(t, ok)] }
      match s1.queue with
      | [] => { s1 with locked := false }
      | h :: rest =>
        { s1 with queue := rest,
                  status := fun u => if u = h then TStatus.running else s1.status u,
                  granted := s1.granted ++ [h] }
    else s

def mrun (s : MutexSt) (evs : List MEv) : MutexSt := evs.foldl mstep s

def minit : MutexSt :=
  { locked := false, queue := [], status := fun _ => TStatus.idle,
    granted := [], arrivals := [], completions := [] }

/-- The inductive invariant of the mutex state machine: at most one task
holds the lock, every queued task is waiting, an unlocked mutex has no
queue and no holder, the grant log followed by the queue is exactly the
arrival log, and the queue has no duplicates. -/
def MutexInv (s : MutexSt) : Prop :=
  (∀ a b, s.status a = TStatus.running → s.status b = TStatus.running → a = b) ∧
  (∀ t, t ∈ s.queue → s.status t = TStatus.waiting) ∧
  (s.locked = false → s.queue = [] ∧ ∀ t, s.status t ≠ TStatus.running) ∧
  s.granted ++ s.queue = s.arrivals ∧
  s.queue.Nodup

theorem mutexInv_init : MutexInv minit := by
  refine ⟨?_, ?_, ?_, rfl, List.nodup_nil⟩ <;> simp [minit]

theorem mstep_arrive_queued (s : MutexSt) (t : Nat) (hidle : s.status t = TStatus.idle)
    (hl : s.locked = true) :
    mstep s (MEv.arrive t) =
      { s with queue := s.queue ++ [t],
               status := fun u => if u = t then TStatus.waiting else s.status u,
               arrivals := s.arrivals ++ [t] } := by
  simp [mstep, hidle, hl]

theorem mstep_arrive_free (s : MutexSt) (t : Nat) (hidle : s.status t = TStatus.idle)
    (hl : s.locked = false) :
    mstep s (MEv.arrive t) =
      { s with locked := true,
               status := fun u => if u = t then TStatus.running else s.status u,
               granted := s.granted ++ [t],
               arrivals := s.arrivals ++ [t] } := by
  simp [mstep, hidle, hl]

theorem mstep_finish_nil (s : MutexSt) (t : Nat) (ok : Bool)
    (hrun : s.status t = TStatus.running) (hq : s.queue = []) :
    mstep s (MEv.finish t ok) =
      { s with locked := false,
               status := fun u => if u = t then TStatus.done else s.status u,
               completions := s.completions ++ [(t, ok)] } := by
  simp [mstep, hrun, hq]

theorem mstep_finish_cons (s : MutexSt) (t h : Nat) (rest : List Nat) (ok : Bool)
    (hrun : s.status t = TStatus.running) (hq : s.queue = h :: rest) :
    mstep s (MEv.finish t ok) =
      { s with queue := rest,
               status := fun u =>
                 if u = h then TStatus.running
                 else if u = t then TStatus.done else s.status u,
               granted := s.granted ++ [h],
               completions := s.completions ++ [(t, ok)] } := by
  simp [mstep, hrun, hq]

theorem mutexInv_step (s : MutexSt) (e : MEv) (hs : MutexInv s) : MutexInv (mstep s e) := by
  obtain ⟨hex, hqw, hfree, hlog, hnd⟩ := hs
  cases e with
  | arrive t =>
    by_cases hidle : s.status t = TStatus.idle
    · cases hl : s.locked with
      | true =>
        rw [mstep_arrive_queued s t hidle hl]
        refine ⟨?_, ?_, ?_, ?_, ?_⟩
        · intro a b ha hb
          dsimp only at ha hb
          by_cases hat : a = t
          · rw [if_pos hat] at ha
            cases ha
          · rw [if_neg hat] at ha
            by_cases hbt : b = t
            · rw [if_pos hbt] at hb
              cases hb
            · rw [if_neg hbt] at hb
              exact hex a b ha hb
        · intro u hu
          dsimp only at hu ⊢
          rcases List.mem_append.mp hu with h1 | h1
          · have huq := hqw u h1
            have hut : u ≠ t := by
              intro hc
              rw [hc, hidle] at huq
              cases huq
            rw [if_neg hut]
            exact huq
          · have hut : u = t := by simpa using h1
            rw [if_pos hut]
        · intro hcon
          dsimp only at hcon
          rw [hl] at hcon
          cases hcon
        · dsimp only
          rw [← List.append_assoc, hlog]
        · dsimp only
          refine List.Nodup.append hnd (List.nodup_singleton t) ?_
          intro u hu hut
          have huq := hqw u hu
          have hc : u = t := by simpa using hut
          rw [hc, hidle] at huq
          cases huq
      | false =>
        obtain ⟨hq0, hnr⟩ := hfree hl
        rw [mstep_arrive_free s t hidle hl]
        refine ⟨?_, ?_, ?_, ?_, ?_⟩
        · intro a b ha hb
          dsimp only at ha hb
          by_cases hat : a = t
          · by_cases hbt : b = t
            · rw [hat, hbt]
            · rw [if_neg hbt] at hb
              exact absurd hb (hnr b)
          · rw [if_neg hat] at ha
            exact absurd ha (hnr a)
        · intro u hu
          dsimp only at hu
          rw [hq0] at hu
          cases hu
        · intro hcon
          dsimp only at hcon
          cases hcon
        · dsimp only
          rw [hq0, List.append_nil]
          rw [hq0, List.append_nil] at hlog
          rw [hlog]
        · dsimp only
          rw [hq0]
          exact List.nodup_nil
    · have hskip : mstep s (MEv.arrive t) = s := by simp [mstep, hidle]
      rw [hskip]
      exact ⟨hex, hqw, hfree, hlog, hnd⟩
  | finish t ok =>
    by_cases hrun : s.status t = TStatus.running
    · have hlocked : s.locked = true := by
        cases hl : s.locked with
        | false => exact absurd hrun ((hfree hl).2 t)
        | true => rfl
      cases hq : s.queue with
      | nil =>
        rw [mstep_finish_nil s t ok hrun hq]
        refine ⟨?_, ?_, ?_, ?_, ?_⟩
        · intro a b ha hb
          dsimp only at ha hb
          by_cases hat : a = t
          · rw [if_pos hat] at ha
            cases ha
          · rw [if_neg hat] at ha
            by_cases hbt : b = t
            · rw [if_pos hbt] at hb
              cases hb
            · rw [if_neg hbt] at hb
              exact hex a b ha hb
        · intro u hu
          dsimp only at hu
          rw [hq] at hu
          cases hu
        · intro _
          dsimp only
          refine ⟨hq, ?_⟩
          intro u
          by_cases hut : u = t
          · rw [if_pos hut]
            intro hcon
            cases hcon
          · rw [if_neg hut]
            intro hcon
            exact hut (hex u t hcon hrun)
        · dsimp only
          exact hlog
        · dsimp only
          exact hnd
      | cons h rest =>
        have hhw : s.status h = TStatus.waiting := hqw h (by rw [hq]; exact List.mem_cons_self h rest)
        have hht : h ≠ t := by
          intro hc
          rw [hc, hrun] at hhw
          cases hhw
        have hndr : (h :: rest).Nodup := by rwa [hq] at hnd
        rw [mstep_finish_cons s t h rest ok hrun hq]
        refine ⟨?_, ?_, ?_, ?_, ?_⟩
        · intro a b ha hb
          dsimp only at ha hb
          by_cases hah : a = h
          · by_cases hbh : b = h
            · rw [hah, hbh]
            · rw [if_neg hbh] at hb
              by_cases hbt : b = t
              · rw [if_pos hbt] at hb
                cases hb
              · rw [if_neg hbt] at hb
                exact absurd (hex b t hb hrun) hbt
          · rw [if_neg hah] at ha
            by_cases hat : a = t
            · rw [if_pos hat] at ha
              cases ha
            · rw [if_neg hat] at ha
              by_cases hbh : b = h
              · exact absurd (hex a t ha hrun) hat
              · rw [if_neg hbh] at hb
                by_cases hbt : b = t
                · rw [if_pos hbt] at hb
                  cases hb
                · rw [if_neg hbt] at hb
                  exact hex a b ha hb
        · intro u hu
          dsimp only at hu ⊢
          have humem : u ∈ s.queue := by
            rw [hq]
            exact List.mem_cons_of_mem h hu
          have huh : u ≠ h := by
            intro hc
            rw [hc] at hu
            exact (List.nodup_cons.mp hndr).1 hu
          have huq := hqw u humem
          have hut : u ≠ t := by
            intro hc
            rw [hc, hrun] at huq
            cases huq
          rw [if_neg huh, if_neg hut]
          exact huq
        · intro hcon
          dsimp only at hcon
          rw [hlocked] at hcon
          cases hcon
        · dsimp only
          rw [List.append_assoc, List.singleton_append]
          rw [hq] at hlog
          exact hlog
        · dsimp only
          exact (List.nodup_cons.mp hndr).2
    · have hskip : mstep s (MEv.finish t ok) = s := by simp [mstep, hrun]
      rw [hskip]
      exact ⟨hex, hqw, hfree, hlog, hnd⟩

theorem mutexInv_run (evs : List MEv) : ∀ s, MutexInv s → MutexInv (mrun s evs) := by
  induction evs with
  | nil => intro s hs; exact hs
  | cons e rest ih =>
    intro s hs
    exact ih (mstep s e) (mutexInv_step s e hs)

/-- C3: in every state reachable by `runExclusive` traffic, (1) mutual
exclusion holds — at most one task is running its wrapped `fn`; (2) waiters
are granted strictly in FIFO arrival order — the grant log followed by the
wait queue is exactly the arrival log, so grants are always a prefix of
arrivals; (3) a `finish` event — `fn` returning or throwing alike — leaves
the finishing task without the lock (the `finally` release runs on every
exit path), and its outcome, exception included, is appended unchanged to
the completion log, i.e. propagated to the caller after the release. -/
theorem mutex_runExclusive_spec (evs : List MEv) :
    (∀ a b, (mrun minit evs).status a = TStatus.running →
      (mrun minit evs).status b = TStatus.running → a = b) ∧
    (mrun minit evs).granted ++ (mrun minit evs).queue = (mrun minit evs).arrivals ∧
    (∀ t ok, (mstep (mrun minit evs) (MEv.finish t ok)).status t ≠ TStatus.running ∧
      (mstep (mrun minit evs) (MEv.finish t ok)).completions =
        (mrun minit evs).completions ++
          (if (mrun minit evs).status t = TStatus.running then [(t, ok)] else [])) := by
  obtain ⟨hex, hqw, hfree, hlog, hnd⟩ := mutexInv_run evs minit mutexInv_init
  refine ⟨hex, hlog, ?_⟩
  intro t ok
  set s := mrun minit evs with hs
  by_cases hrun : s.status t = TStatus.running
  · cases hq : s.queue with
    | nil =>
      rw [mstep_finish_nil s t ok hrun hq]
      constructor
      · dsimp only
        rw [if_pos rfl]
        intro hcon
        cases hcon
      · dsimp only
        rw [if_pos hrun]
    | cons h rest =>
      have hhw : s.status h = TStatus.waiting := hqw h (by rw [hq]; exact List.mem_cons_self h rest)
      have hht : t ≠ h := by
        intro hc
        rw [← hc, hrun] at hhw
        cases hhw
      rw [mstep_finish_cons s t h rest ok hrun hq]
      constructor
      · dsimp only
        rw [if_neg hht, if_pos rfl]
        intro hcon
        cases hcon
      · dsimp only
        rw [if_pos hrun]
  · have hskip : mstep s (MEv.finish t ok) = s := by simp [mstep, hrun]
    rw [hskip]
    exact ⟨hrun, by rw [if_neg hrun, List.append_nil]⟩

/-- Witness for C3 at a concrete trace: task 0 arrives and is granted, task 1
arrives and waits; the `fn` of task 0 throws, the release hands the lock to task 1
in FIFO order, and the thrown outcome is propagated. -/
theorem mutex_runExclusive_spec_witness :
    (0 : Nat) = 0 ∧
    (mrun minit [MEv.arrive 0, MEv.arrive 1, MEv.finish 0 false]).granted ++
        (mrun minit [MEv.arrive 0, MEv.arrive 1, MEv.finish 0 false]).queue =
      (mrun minit [MEv.arrive 0, MEv.arrive 1, MEv.finish 0 false]).arrivals :=
  ⟨(mutex_runExclusive_spec [MEv.arrive 0]).1 0 0 (by decide) (by decide),
   (mutex_runExclusive_spec [MEv.arrive 0, MEv.arrive 1, MEv.finish 0 false]).2.1⟩

/-! ### Task Registry: the `TimerManager` class

State of the singleton `timerManager`: the three tracking maps
(name to platform handle, handles modelled as numeric ids) and the
`isShuttingDown` flag. -/

structure TimerSt where
  intervals : List (String × Nat)
  timeouts : List (String × Nat)
  cronJobs : List (String × Nat)
  isShuttingDown : Bool
deriving DecidableEq

def tInit : TimerSt := ⟨[], [], [], false⟩

/-- Model of `TimerManager.setInterval`: refuses while shutting down (null handle);
otherwise clears any same-named entry and records the fresh handle `id`. -/
def tmSetInterval (s : TimerSt) (name : String) (id : Nat) : Option Nat × TimerSt :=
  if s.isShuttingDown then (none, s)
  else (some id, { s with intervals := aset s.intervals name id })

/-- Model of `TimerManager.setTimeout`: refuses while shutting down (null handle);
otherwise clears any same-named entry and records the fresh handle `id`. -/
def tmSetTimeout (s : TimerSt) (name : String) (id : Nat) : Option Nat × TimerSt :=
  if s.isShuttingDown then (none, s)
  else (some id, { s with timeouts := aset s.timeouts name id })

/-- Model of `TimerManager.registerCron`: refuses while shutting down (null handle);
otherwise stops any same-named job and records the new one. -/
def tmRegisterCron (s : TimerSt) (name : String) (id : Nat) : Option Nat × TimerSt :=
  if s.isShuttingDown then (none, s)
  else (some id, { s with cronJobs := aset s.cronJobs name id })

/-- Model of `TimerManager.clearTimeout` by name. -/
def tmClearTimeout (s : TimerSt) (name : String) : TimerSt :=
  { s with timeouts := adel s.timeouts name }

/-- Model of `TimerManager.clearInterval` by name. -/
def tmClearInterval (s : TimerSt) (name : String) : TimerSt :=
  { s with intervals := adel s.intervals name }

/-- Model of `TimerManager.stopCron` by name. -/
def tmStopCron (s : TimerSt) (name : String) : TimerSt :=
  { s with cronJobs := adel s.cronJobs name }

/-- A tracked timeout firing: the wrapper deletes its own entry, then runs
the callback. -/
def tmTimeoutFired (s : TimerSt) (name : String) : TimerSt :=
  { s with timeouts := adel s.timeouts name }

/-- Model of `TimerManager.clearAll`: sets `isShuttingDown`, cancels every tracked
interval, timeout and cron job, and clears all three maps. -/
def tmClearAll (_s : TimerSt) : TimerSt :=
  { intervals := [], timeouts := [], cronJobs := [], isShuttingDown := true }

inductive TEv
  | setI (name : String) (id : Nat)
  | setT (name : String) (id : Nat)
  | regC (name : String) (id : Nat)
  | clrT (name : String)
  | clrI (name : String)
  | stopC (name : String)
  | fired (name : String)
  | clearAllEv

def tstep (s : TimerSt) : TEv → TimerSt
  | TEv.setI name id => (tmSetInterval s name id).2
  | TEv.setT name id => (tmSetTimeout s name id).2
  | TEv.regC name id => (tmRegisterCron s name id).2
  | TEv.clrT name => tmClearTimeout s name
  | TEv.clrI name => tmClearInterval s name
  | TEv.stopC name => tmStopCron s name
  | TEv.fired name => tmTimeoutFired s name
  | TEv.clearAllEv => tmClearAll s

def trun (s : TimerSt) (evs : List TEv) : TimerSt := evs.foldl tstep s

theorem tstep_shutdown (s : TimerSt) (e : TEv) (h : s.isShuttingDown = true) :
    (tstep s e).isShuttingDown = true := by
  cases e <;>
    simp [tstep, tmSetInterval, tmSetTimeout, tmRegisterCron, tmClearTimeout,
      tmClearInterval, tmStopCron, tmTimeoutFired, tmClearAll, h]

theorem trun_shutdown (evs : List TEv) : ∀ s : TimerSt, s.isShuttingDown = true →
    (trun s evs).isShuttingDown = true := by
  induction evs with
  | nil => intro s h; exact h
  | cons e rest ih =>
    intro s h
    exact ih (tstep s e) (tstep_shutdown s e h)

/-- C5: `clearAll` transitions the registry permanently to Draining: the
shutdown flag is set, all three tracking maps are emptied (every tracked
entry cancelled), the flag stays set across any later registry traffic, and
in every such later state the scheduling entry points schedule nothing and
return a null handle without changing the registry; calling `clearAll`
again is a no-op. -/
theorem timer_drainAll_spec (s : TimerSt) (evs : List TEv) (name : String) (id : Nat) :
    (tmClearAll s).isShuttingDown = true ∧
    (tmClearAll s).intervals = [] ∧
    (tmClearAll s).timeouts = [] ∧
    (tmClearAll s).cronJobs = [] ∧
    tmClearAll (tmClearAll s) = tmClearAll s ∧
    (trun (tmClearAll s) evs).isShuttingDown = true ∧
    tmSetInterval (trun (tmClearAll s) evs) name id = (none, trun (tmClearAll s) evs) ∧
    tmSetTimeout (trun (tmClearAll s) evs) name id = (none, trun (tmClearAll s) evs) ∧
    tmRegisterCron (trun (tmClearAll s) evs) name id = (none, trun (tmClearAll s) evs) := by
  have hs : (trun (tmClearAll s) evs).isShuttingDown = true :=
    trun_shutdown evs (tmClearAll s) rfl
  refine ⟨rfl, rfl, rfl, rfl, rfl, hs, ?_, ?_, ?_⟩ <;>
    simp [tmSetInterval, tmSetTimeout, tmRegisterCron, hs]

/-! ### Task Registry cancellable sleep

`timerManager.sleep` is called by `fetchWithRetry` and `checkForNewPosts`
in src/redditRssFeed.js, but the file defining it (src/utils/timerManager.js
with a `sleep` method; the `TimerManager` source present here predates it)
is not among the sources, so it is modelled from the spec. -/

structure SleepSt where
  pendingSleeps : List (String × Nat)
  sleepResults : List (String × Bool)
  draining : Bool

/-- Modelled from the spec: `sleep(name, duration)` — missing from the
sources, only its callers are present — registers a cancellable one-shot
entry under `name` (here with absolute expiry time); while Draining nothing
is registered and the call resolves immediately as not-completed. -/
def sleepRegister (s : SleepSt) (name : String) (expiry : Nat) : SleepSt :=
  if s.draining then { s with sleepResults := s.sleepResults ++ [(name, false)] }
  else { s with pendingSleeps := aset s.pendingSleeps name expiry }

/-- Modelled from the spec: the platform timer for a pending sleep fires
when its delay elapses; the entry is removed and the sleep resolves to
completed (`true`). -/
def sleepElapse (s : SleepSt) (name : String) : SleepSt :=
  match alookup s.pendingSleeps name with
  | some _ =>
    { s with pendingSleeps := adel s.pendingSleeps name,
             sleepResults := s.sleepResults ++ [(name, true)] }
  | none => s

/-- Modelled from the spec: `drainAll()` cancels every pending sleep before
its expiry; each resolves to not-completed (`false`) rather than hanging or
throwing, and the registry drains. -/
def sleepDrain (s : SleepSt) : SleepSt :=
  { pendingSleeps := [],
    sleepResults := s.sleepResults ++ s.pendingSleeps.map (fun e => (e.1, false)),
    draining := true }

theorem alookup_mem {κ ν : Type} [DecidableEq κ] (l : List (κ × ν)) (k : κ) (v : ν)
    (h : alookup l k = some v) : (k, v) ∈ l := by
  induction l with
  | nil => cases h
  | cons e rest ih =>
    by_cases he : e.1 = k
    · have h2 : some e.2 = some v := by
        rw [← h]
        show some e.2 = if e.1 = k then some e.2 else alookup rest k
        rw [if_pos he]
      have hv : e.2 = v := Option.some.inj h2
      have hekv : e = (k, v) := by
        cases e with
        | mk k1 v1 =>
          simp only at he hv
          rw [he, hv]
      rw [← hekv]
      exact List.mem_cons_self e rest
    · right
      apply ih
      rw [← h]
      show alookup rest k = if e.1 = k then some e.2 else alookup rest k
      rw [if_neg he]

/-- C4: the cancellable sleep of the registry is registered as a one-shot entry
under its name; when its delay elapses normally it resolves to completed
(`true`); when `drainAll` cancels it before expiry it resolves to
not-completed (`false`) — it neither hangs (a result is always recorded)
nor throws.  (`timerManager.sleep` itself is absent from the sources;
`sleepRegister`/`sleepElapse`/`sleepDrain` are modelled from the spec.) -/
theorem timer_sleep_spec (s : SleepSt) (name : String) (expiry : Nat) :
    (s.draining = false →
      alookup (sleepRegister s name expiry).pendingSleeps name = some expiry) ∧
    (∀ e, alookup s.pendingSleeps name = some e →
      (sleepElapse s name).sleepResults = s.sleepResults ++ [(name, true)] ∧
      alookup (sleepElapse s name).pendingSleeps name = none) ∧
    (∀ e, alookup s.pendingSleeps name = some e →
      (name, false) ∈ (sleepDrain s).sleepResults ∧ (sleepDrain s).pendingSleeps = []) := by
  refine ⟨?_, ?_, ?_⟩
  · intro hd
    rw [sleepRegister, hd]
    simp only [Bool.false_eq_true, if_false]
    exact alookup_aset_self s.pendingSleeps name expiry
  · intro e he
    rw [sleepElapse, he]
    exact ⟨rfl, alookup_adel_self s.pendingSleeps name⟩
  · intro e he
    refine ⟨?_, rfl⟩
    have hmem := alookup_mem s.pendingSleeps name e he
    rw [sleepDrain]
    apply List.mem_append_right
    exact List.mem_map.mpr ⟨(name, e), hmem, rfl⟩

/-- Witness for C4 at concrete inputs: a sleep registered in a fresh
registry resolves completed when it fires and not-completed when drained. -/
theorem timer_sleep_spec_witness :
    alookup (sleepRegister ⟨[], [], false⟩ "rss-retry-1" 2000).pendingSleeps "rss-retry-1"
        = some 2000 ∧
    (sleepElapse ⟨[("rss-retry-1", 2000)], [], false⟩ "rss-retry-1").sleepResults
        = [("rss-retry-1", true)] ∧
    ("rss-retry-1", false) ∈ (sleepDrain ⟨[("rss-retry-1", 2000)], [], false⟩).sleepResults := by
  refine ⟨?_, ?_, ?_⟩
  · exact (timer_sleep_spec ⟨[], [], false⟩ "rss-retry-1" 2000).1 rfl
  · exact ((timer_sleep_spec ⟨[("rss-retry-1", 2000)], [], false⟩ "rss-retry-1" 2000).2.1
      2000 (by decide)).1
  · exact ((timer_sleep_spec ⟨[("rss-retry-1", 2000)], [], false⟩ "rss-retry-1" 2000).2.2
      2000 (by decide)).1

/-! ### Dedup Tracker and feed poller: `src/redditRssFeed.js`, `src/updateMonitor.js` -/

/-- JS `Array.prototype.slice(-n)`: the last `n` elements (all of them when
shorter), in order. -/
def sliceLast {α : Type} (n : Nat) (xs : List α) : List α := (xs.reverse.take n).reverse

theorem take_append_take {α : Type} (n : Nat) (a b : List α) :
    List.take n (a ++ List.take n b) = List.take n (a ++ b) := by
  rw [List.take_append_eq_append_take, List.take_append_eq_append_take, List.take_take,
    Nat.min_eq_left (Nat.sub_le n a.length)]

theorem sliceLast_append {α : Type} (n : Nat) (a b : List α) :
    sliceLast n (sliceLast n a ++ b) = sliceLast n (a ++ b) := by
  unfold sliceLast
  rw [List.reverse_append, List.reverse_reverse, List.reverse_append, take_append_take]

theorem sliceLast_of_le {α : Type} (n : Nat) (a : List α) (h : a.length ≤ n) :
    sliceLast n a = a := by
  unfold sliceLast
  rw [List.take_of_length_le (by simpa using h), List.reverse_reverse]

theorem sliceLast_length_le {α : Type} (n : Nat) (a : List α) :
    (sliceLast n a).length ≤ n := by
  unfold sliceLast
  rw [List.length_reverse, List.length_take]
  exact Nat.min_le_left n _

theorem sliceLast_append_of_length {α : Type} (n : Nat) (a b : List α) (h : b.length = n) :
    sliceLast n (a ++ b) = b := by
  unfold sliceLast
  rw [List.reverse_append, List.take_append_eq_append_take,
    List.take_of_length_le (by simp [h]), List.length_reverse, h, Nat.sub_self,
    List.take_zero, List.append_nil, List.reverse_reverse]

/-- The in-memory `postedItems` set (insertion-ordered) together with the
persisted `redditPosts` array of `postedItems.json`. -/
structure FeedSt where
  mem : List String
  record : List String
deriving DecidableEq

/-- JS `Set.prototype.add`: appends when absent, keeps insertion order. -/
def setAdd (mem : List String) (k : String) : List String :=
  if k ∈ mem then mem else mem ++ [k]

/-- Model of `savePostedItems` (src/redditRssFeed.js): trims the in-memory set to the
last `MAX_STORED_ITEMS = 10` links and persists that array. -/
def savePostedItems (s : FeedSt) : FeedSt :=
  let itemsArray := sliceLast 10 s.mem
  { mem := itemsArray, record := itemsArray }

/-- The new-item selection of `checkForNewPosts`: unseen feed items,
reversed so the oldest is emitted first (the feed lists newest first). -/
def newItems (feedItems : List String) (mem : List String) : List String :=
  (feedItems.filter (fun l => decide (l ∉ mem))).reverse

/-- Model of `checkForNewPosts` (src/redditRssFeed.js): emits each new item, adding
its link to the in-memory set immediately before posting it, and calls
`savePostedItems` once after the loop when anything was posted.  Returns
the emission list (in order) and the final state. -/
def checkForNewPosts (feedItems : List String) (s : FeedSt) : List String × FeedSt :=
  let items := newItems feedItems s.mem
  let s1 : FeedSt := { s with mem := items.foldl setAdd s.mem }
  (items, if items.length > 0 then savePostedItems s1 else s1)

/-- Run of `checkForNewPosts` interrupted by a crash immediately after the `k`-th
new item has been emitted and marked in memory: the batch-final
`savePostedItems` never runs, so the persisted record is untouched. -/
def checkCrashAfter (feedItems : List String) (s : FeedSt) (k : Nat) : List String × FeedSt :=
  let items := newItems feedItems s.mem
  let emitted := items.take k
  (emitted, { s with mem := emitted.foldl setAdd s.mem })

/-- Model of `loadPostedItems` on restart: the in-memory set is rebuilt from the
persisted record. -/
def restartFrom (s : FeedSt) : FeedSt := { mem := s.record, record := s.record }

/-- Model of `markUpdatePosted` (src/updateMonitor.js): appends the release key to
the persisted `updatePosts` array and keeps only the last
`MAX_STORED_UPDATES = 10`. -/
def markUpdatePosted (updates : List String) (releaseKey : String) : List String :=
  sliceLast 10 (updates ++ [releaseKey])

/-- One Reddit-side mark-and-persist: add the link to the in-memory set
(`postedItems.add`) and run `savePostedItems`. -/
def redditMarkAndPersist (s : FeedSt) (link : String) : FeedSt :=
  savePostedItems { s with mem := setAdd s.mem link }

theorem foldl_markUpdatePosted (ks : List String) :
    ∀ r : List String, r.length ≤ 10 →
      ks.foldl markUpdatePosted r = sliceLast 10 (r ++ ks) := by
  induction ks with
  | nil =>
    intro r h
    rw [List.foldl_nil, List.append_nil, sliceLast_of_le 10 r h]
  | cons k rest ih =>
    intro r h
    rw [List.foldl_cons]
    rw [ih (markUpdatePosted r k) (sliceLast_length_le 10 (r ++ [k]))]
    show sliceLast 10 (sliceLast 10 (r ++ [k]) ++ rest) = sliceLast 10 (r ++ k :: rest)
    rw [sliceLast_append, List.append_assoc, List.singleton_append]

theorem sliceLast_sublist {α : Type} (n : Nat) (a : List α) :
    List.Sublist (sliceLast n a) a := by
  have h1 : List.Sublist (a.reverse.take n) a.reverse := List.take_sublist n a.reverse
  have h2 := List.Sublist.reverse h1
  rwa [List.reverse_reverse] at h2

theorem foldl_redditMark (ks : List String) :
    ∀ mem r : List String, (mem ++ ks).Nodup → mem.length ≤ 10 →
      (ks.foldl redditMarkAndPersist ⟨mem, r⟩).mem = sliceLast 10 (mem ++ ks) ∧
      (ks ≠ [] →
        (ks.foldl redditMarkAndPersist ⟨mem, r⟩).record = sliceLast 10 (mem ++ ks)) := by
  induction ks with
  | nil =>
    intro mem r _ hlen
    refine ⟨?_, fun hne => absurd rfl hne⟩
    rw [List.foldl_nil, List.append_nil, sliceLast_of_le 10 mem hlen]
  | cons k rest ih =>
    intro mem r hnd hlen
    have hk : k ∉ mem := by
      rw [List.nodup_append] at hnd
      intro hcon
      exact hnd.2.2 hcon (List.mem_cons_self k rest)
    have hstep : redditMarkAndPersist ⟨mem, r⟩ k =
        ⟨sliceLast 10 (mem ++ [k]), sliceLast 10 (mem ++ [k])⟩ := by
      simp [redditMarkAndPersist, savePostedItems, setAdd, hk]
    have hregroup : ((mem ++ [k]) ++ rest).Nodup := by
      rw [List.append_assoc, List.singleton_append]
      exact hnd
    have hnd2 : (sliceLast 10 (mem ++ [k]) ++ rest).Nodup :=
      List.Nodup.sublist
        (List.Sublist.append (sliceLast_sublist 10 (mem ++ [k])) (List.Sublist.refl rest))
        hregroup
    obtain ⟨hmem2, hrec2⟩ :=
      ih (sliceLast 10 (mem ++ [k])) (sliceLast 10 (mem ++ [k])) hnd2
        (sliceLast_length_le 10 (mem ++ [k]))
    constructor
    · rw [List.foldl_cons, hstep, hmem2, sliceLast_append, List.append_assoc,
        List.singleton_append]
    · intro _
      by_cases hrest : rest = []
      · subst hrest
        rw [List.foldl_cons, hstep, List.foldl_nil]
      · rw [List.foldl_cons, hstep, hrec2 hrest, sliceLast_append, List.append_assoc,
          List.singleton_append]

theorem foldl_redditMark_record_le (ks : List String) :
    ∀ s : FeedSt, s.record.length ≤ 10 →
      ((ks.foldl redditMarkAndPersist s).record).length ≤ 10 := by
  induction ks with
  | nil => intro s h; exact h
  | cons k rest ih =>
    intro s _
    rw [List.foldl_cons]
    exact ih (redditMarkAndPersist s k) (sliceLast_length_le 10 (setAdd s.mem k))

/-- C7: after `capacity + 5 = 15` mark-and-persist operations with distinct
keys from an empty record, the persisted Dedup Record — both the update
update monitor `markUpdatePosted` operation and the Reddit poller add-then-save — holds
exactly the last 10 keys in insertion order (the 5 oldest evicted), and
after any sequence of operations whatsoever the record length never
exceeds the capacity 10. -/
theorem dedup_capacity_spec (ks : List String) (hnd : ks.Nodup) (hlen : ks.length = 15) :
    ks.foldl markUpdatePosted [] = ks.drop 5 ∧
    (ks.foldl redditMarkAndPersist ⟨[], []⟩).record = ks.drop 5 ∧
    (∀ ks2 : List String, (ks2.foldl markUpdatePosted []).length ≤ 10 ∧
      ((ks2.foldl redditMarkAndPersist ⟨[], []⟩).record).length ≤ 10) := by
  have hslice : sliceLast 10 ks = ks.drop 5 := by
    have hsplit : ks.take 5 ++ ks.drop 5 = ks := List.take_append_drop 5 ks
    have hdlen : (ks.drop 5).length = 10 := by
      rw [List.length_drop, hlen]
    calc sliceLast 10 ks = sliceLast 10 (ks.take 5 ++ ks.drop 5) := by rw [hsplit]
      _ = ks.drop 5 := sliceLast_append_of_length 10 _ _ hdlen
  refine ⟨?_, ?_, ?_⟩
  · rw [foldl_markUpdatePosted ks [] (by simp), List.nil_append, hslice]
  · have hne : ks ≠ [] := by
      intro hcon
      rw [hcon] at hlen
      cases hlen
    have hrec := (foldl_redditMark ks [] [] (by simpa using hnd) (by simp)).2 hne
    rw [hrec, List.nil_append, hslice]
  · intro ks2
    constructor
    · rw [foldl_markUpdatePosted ks2 [] (by simp), List.nil_append]
      exact sliceLast_length_le 10 ks2
    · exact foldl_redditMark_record_le ks2 ⟨[], []⟩ (by simp)

/-- Witness for C7 at a concrete run: 15 distinct keys leave exactly the
last 10 in the persisted record. -/
theorem dedup_capacity_spec_witness :
    (["a", "b", "c", "d", "e", "f", "g", "h", "i", "j", "k", "l", "m", "n", "o"].foldl
        markUpdatePosted []) =
      (["a", "b", "c", "d", "e", "f", "g", "h", "i", "j", "k", "l", "m", "n", "o"] :
        List String).drop 5 :=
  (dedup_capacity_spec
    ["a", "b", "c", "d", "e", "f", "g", "h", "i", "j", "k", "l", "m", "n", "o"]
    (by decide) (by decide)).1

/-- C6 counterexample: with feed `[C, B, A]` (newest first; A oldest) and
nothing previously seen, a crash immediately after B is marked leaves the
persisted record empty — the batch save never ran — so the restart re-emits
A, B and C, not only C as the claim states. -/
theorem feed_crash_restart_counterexample :
    (checkCrashAfter ["C", "B", "A"] ⟨[], []⟩ 2).1 = ["A", "B"] ∧
    (checkCrashAfter ["C", "B", "A"] ⟨[], []⟩ 2).2.record = [] ∧
    (checkForNewPosts ["C", "B", "A"]
        (restartFrom (checkCrashAfter ["C", "B", "A"] ⟨[], []⟩ 2).2)).1 = ["A", "B", "C"] ∧
    (["A", "B", "C"] : List String) ≠ ["C"] := by
  decide

/-- C6 amended: the poller emits unseen items oldest-first (A, then B, then
C), adds each to the in-memory posted set at emission time, and persists
the set once after the whole batch; consequently after a crash immediately
after B is marked (nothing persisted yet), a restart re-emits A, B and C. -/
theorem feed_emission_spec_amended :
    (checkForNewPosts ["C", "B", "A"] ⟨[], []⟩).1 = ["A", "B", "C"] ∧
    (checkForNewPosts ["C", "B", "A"] ⟨[], []⟩).2.mem = ["A", "B", "C"] ∧
    (checkForNewPosts ["C", "B", "A"] ⟨[], []⟩).2.record = ["A", "B", "C"] ∧
    (checkCrashAfter ["C", "B", "A"] ⟨[], []⟩ 2).2.mem = ["A", "B"] ∧
    (checkCrashAfter ["C", "B", "A"] ⟨[], []⟩ 2).2.record = [] ∧
    (checkForNewPosts ["C", "B", "A"]
        (restartFrom (checkCrashAfter ["C", "B", "A"] ⟨[], []⟩ 2).2)).1 = ["A", "B", "C"] := by
  decide

/-! ### Backoff Poller: `fetchWithRetry` in `src/redditRssFeed.js` -/

inductive FetchOutcome (E A : Type)
  | ok (a : A)
  | fail (e : E)
  | cancelled
  | noAttempt
deriving DecidableEq

/-- The loop body of `fetchWithRetry`, one iteration per attempt.
`op attempt` is the `parser.parseURL` outcome of that attempt, `sleepDone
attempt` is whether the tracked backoff sleep completed (`false` = drained
by shutdown, which aborts with a cancellation error).  `remaining` is the
number of attempts still permitted including the current one (`r = 0` in
the failure branch is `attempt === maxRetries`, which rethrows).  Returns
the outcome, the number of `op` invocations performed, and the list of
backoff delays requested, each `min(1000 * 2 ^ attempt, 30000)`. -/
def fetchGo {E A : Type} (op : Nat → Except E A) (sleepDone : Nat → Bool) :
    Nat → Nat → FetchOutcome E A × Nat × List Nat
  | 0, _ => (FetchOutcome.noAttempt, 0, [])
  | r + 1, attempt =>
    match op attempt with
    | Except.ok a => (FetchOutcome.ok a, 1, [])
    | Except.error e =>
      if r = 0 then (FetchOutcome.fail e, 1, [])
      else
        let delay := min (1000 * 2 ^ attempt) 30000
        if sleepDone attempt then
          let rest := fetchGo op sleepDone r (attempt + 1)
          (rest.1, rest.2.1 + 1, delay :: rest.2.2)
        else (FetchOutcome.cancelled, 1, [delay])

/-- Model of `fetchWithRetry(url, maxRetries)`: run the loop from attempt 1. -/
def fetchWithRetry {E A : Type} (op : Nat → Except E A) (sleepDone : Nat → Bool)
    (maxRetries : Nat) : FetchOutcome E A × Nat × List Nat :=
  fetchGo op sleepDone maxRetries 1

/-- The backoff schedule of the spec: `n` delays for consecutive attempts
starting at `attempt`, each `min(base * 2 ^ attempt, cap)` with base
1000 ms and cap 30000 ms. -/
def backoffDelays (attempt : Nat) : Nat → List Nat
  | 0 => []
  | n + 1 => min (1000 * 2 ^ attempt) 30000 :: backoffDelays (attempt + 1) n

/-- An operation that fails on its first two attempts and then returns 42,
for the concrete retry scenarios. -/
def opFailTwice : Nat → Except Nat Nat :=
  fun n => if n ≤ 2 then Except.error n else Except.ok 42

theorem fetchGo_delays {E A : Type} (op : Nat → Except E A) (sleepDone : Nat → Bool) :
    ∀ r attempt, (fetchGo op sleepDone r attempt).2.2 =
      backoffDelays attempt (fetchGo op sleepDone r attempt).2.2.length := by
  intro r
  induction r with
  | zero => intro attempt; rfl
  | succ r ih =>
    intro attempt
    cases hop : op attempt with
    | ok a => simp [fetchGo, hop, backoffDelays]
    | error e =>
      by_cases hr : r = 0
      · simp [fetchGo, hop, hr, backoffDelays]
      · cases hsl : sleepDone attempt with
        | true =>
          simp only [fetchGo, hop, hr, hsl, if_false, if_true]
          rw [List.length_cons]
          rw [backoffDelays]
          rw [← ih (attempt + 1)]
        | false =>
          simp [fetchGo, hop, hr, hsl, backoffDelays]

/-- C8: the requested backoff waits follow `min(1000 * 2^attempt,
30000)` for consecutive attempts starting at 1 — one wait per failure
except the final permitted attempt, which surfaces its error instead.
Concretely, an operation failing twice then succeeding returns the success
after exactly 3 invocations under `maxRetries = 3` (with waits 2000 ms then
4000 ms), and under `maxRetries = 2` the second failure is surfaced with no
third invocation. -/
theorem fetchWithRetry_spec :
    (∀ (E A : Type) (op : Nat → Except E A) (sleepDone : Nat → Bool) (maxRetries : Nat),
      (fetchWithRetry op sleepDone maxRetries).2.2 =
        backoffDelays 1 (fetchWithRetry op sleepDone maxRetries).2.2.length) ∧
    fetchWithRetry opFailTwice (fun _ => true) 3 =
      (FetchOutcome.ok 42, 3, [2000, 4000]) ∧
    fetchWithRetry opFailTwice (fun _ => true) 2 =
      (FetchOutcome.fail 2, 2, [2000]) := by
  refine ⟨?_, by decide, by decide⟩
  intro E A op sleepDone maxRetries
  exact fetchGo_delays op sleepDone maxRetries 1

/-! ### Rate Limiter: the `RateLimiter` class

Default limits: a 60 s sliding window of at most 10 requests, a warning at
8, and a 30 s block after exceeding.  `userRequests` is keyed by
`userId:commandName`; `blocked` is keyed by `userId` alone. -/

def windowMs : Int := 60000

def maxRequests : Nat := 10

def warnThreshold : Nat := 8

def blockDurationMs : Int := 30000

structure RLState where
  userRequests : List ((String × String) × (List Int × Bool))
  blocked : List (String × Int)
deriving DecidableEq

def rlInit : RLState := ⟨[], []⟩

structure CheckResult where
  allowed : Bool
  warning : Bool
  retryAfter : Option Int
  remaining : Option Nat
deriving DecidableEq

/-- Model of `Math.ceil(ms / 1000)` for the non-negative millisecond values used. -/
def ceilSeconds (ms : Int) : Int := (ms + 999) / 1000

/-- The part of `RateLimiter.check` after the blocked-user early return:
prune timestamps outside the window; at capacity, persist the pruned list,
block the user and deny; otherwise update the warned flag, record the
request and allow. -/
def checkBody (now : Int) (userId commandName : String) (s : RLState) :
    CheckResult × RLState :=
  let key := (userId, commandName)
  let userData := (alookup s.userRequests key).getD ([], false)
  let windowStart := now - windowMs
  let timestamps := userData.1.filter (fun ts => decide (windowStart < ts))
  if maxRequests ≤ timestamps.length then
    ({ allowed := false, warning := false,
       retryAfter := some (ceilSeconds blockDurationMs), remaining := none },
     { userRequests := aset s.userRequests key (timestamps, userData.2),
       blocked := aset s.blocked userId (now + blockDurationMs) })
  else
    let warning := decide (warnThreshold ≤ timestamps.length) && !userData.2
    let warned := decide (warnThreshold ≤ timestamps.length)
    let timestamps2 := timestamps ++ [now]
    ({ allowed := true, warning := warning, retryAfter := none,
       remaining := some (maxRequests - timestamps2.length) },
     { s with userRequests := aset s.userRequests key (timestamps2, warned) })

/-- Model of `RateLimiter.check(userId, commandName)`: deny while the user-level
block is active (with the remaining block time in seconds), clear an
expired block lazily, then run the windowed check. -/
def check (now : Int) (userId commandName : String) (s : RLState) :
    CheckResult × RLState :=
  match alookup s.blocked userId with
  | some unblockTime =>
    if now < unblockTime then
      ({ allowed := false, warning := false,
         retryAfter := some (ceilSeconds (unblockTime - now)), remaining := none }, s)
    else
      checkBody now userId commandName { s with blocked := adel s.blocked userId }
  | none => checkBody now userId commandName s

def runChecks : List (Int × String × String) → RLState → List CheckResult × RLState
  | [], s => ([], s)
  | call :: rest, s =>
    let r := check call.1 call.2.1 call.2.2 s
    let rr := runChecks rest r.2
    (r.1 :: rr.1, rr.2)

/-- The returned verdict of the windowed check as a function of the looked-up
per-key entry alone. -/
def bodyResult (now : Int) (userData : List Int × Bool) : CheckResult :=
  let timestamps := userData.1.filter (fun ts => decide (now - windowMs < ts))
  if maxRequests ≤ timestamps.length then
    { allowed := false, warning := false,
      retryAfter := some (ceilSeconds blockDurationMs), remaining := none }
  else
    { allowed := true,
      warning := decide (warnThreshold ≤ timestamps.length) && !userData.2,
      retryAfter := none,
      remaining := some (maxRequests - (timestamps.length + 1)) }

/-- The returned verdict of `check` as a function of the two lookups
(`blocked` at the userId, `userRequests` at the key) alone. -/
def checkFst (now : Int) (u c : String) (s : RLState) : CheckResult :=
  match alookup s.blocked u with
  | some ub =>
    if now < ub then
      { allowed := false, warning := false,
        retryAfter := some (ceilSeconds (ub - now)), remaining := none }
    else bodyResult now ((alookup s.userRequests (u, c)).getD ([], false))
  | none => bodyResult now ((alookup s.userRequests (u, c)).getD ([], false))

theorem checkBody_fst (now : Int) (u c : String) (s : RLState) :
    (checkBody now u c s).1 =
      bodyResult now ((alookup s.userRequests (u, c)).getD ([], false)) := by
  simp only [checkBody, bodyResult]
  split
  · rfl
  · simp [List.length_append]

theorem check_fst (now : Int) (u c : String) (s : RLState) :
    (check now u c s).1 = checkFst now u c s := by
  unfold check checkFst
  cases hb : alookup s.blocked u with
  | some ub =>
    dsimp only
    by_cases hlt : now < ub
    · rw [if_pos hlt, if_pos hlt]
    · rw [if_neg hlt, if_neg hlt]
      exact checkBody_fst now u c _
  | none => exact checkBody_fst now u c s

theorem checkBody_blocked_other (now : Int) (u c u2 : String) (s : RLState) (h : u2 ≠ u) :
    alookup (checkBody now u c s).2.blocked u2 = alookup s.blocked u2 := by
  simp only [checkBody]
  split
  · exact alookup_aset_ne s.blocked u u2 _ h
  · rfl

theorem checkBody_userRequests_other (now : Int) (u c u2 c2 : String) (s : RLState)
    (h : u2 ≠ u) :
    alookup (checkBody now u c s).2.userRequests (u2, c2) =
      alookup s.userRequests (u2, c2) := by
  have hkey : (u2, c2) ≠ (u, c) := by
    intro hc
    exact h (congrArg Prod.fst hc)
  simp only [checkBody]
  split
  · exact alookup_aset_ne s.userRequests (u, c) (u2, c2) _ hkey
  · exact alookup_aset_ne s.userRequests (u, c) (u2, c2) _ hkey

theorem check_blocked_other (now : Int) (u c u2 : String) (s : RLState) (h : u2 ≠ u) :
    alookup (check now u c s).2.blocked u2 = alookup s.blocked u2 := by
  unfold check
  cases hb : alookup s.blocked u with
  | some ub =>
    dsimp only
    by_cases hlt : now < ub
    · rw [if_pos hlt]
    · rw [if_neg hlt]
      rw [checkBody_blocked_other now u c u2 _ h]
      exact alookup_adel_ne s.blocked u u2 h
  | none => exact checkBody_blocked_other now u c u2 s h

theorem check_userRequests_other (now : Int) (u c u2 c2 : String) (s : RLState)
    (h : u2 ≠ u) :
    alookup (check now u c s).2.userRequests (u2, c2) =
      alookup s.userRequests (u2, c2) := by
  unfold check
  cases hb : alookup s.blocked u with
  | some ub =>
    dsimp only
    by_cases hlt : now < ub
    · rw [if_pos hlt]
    · rw [if_neg hlt]
      exact checkBody_userRequests_other now u c u2 c2 _ h
  | none => exact checkBody_userRequests_other now u c u2 c2 s h

/-- C9 counterexample: for one key, 10 `check` calls at `t = 0` are allowed
and the 11th is denied with `retryAfter = 30` s; but at `t = 30000` —
exactly `retryAfter` seconds later, the block having expired — the next
call is denied again (the ten timestamps are still inside the 60 s window,
so the code immediately re-blocks), contradicting the claim that it is
allowed again. -/
theorem rateLimiter_retryAfter_counterexample :
    ((runChecks (List.replicate 11 ((0 : Int), ("u", "c"))) rlInit).1.map
        (fun r => r.allowed)) =
      [true, true, true, true, true, true, true, true, true, true, false] ∧
    (check 30000 "u" "c"
        (runChecks (List.replicate 11 ((0 : Int), ("u", "c"))) rlInit).2).1.allowed
      = false := by
  decide

/-- C9 amended: 10 calls within the window are allowed, the 11th is denied
with positive `retryAfter` (30 s, the block duration); after `retryAfter`
seconds the user-level block has expired, but a subsequent call is allowed
again only once fewer than 10 of the recorded timestamps remain inside the
sliding window — with all requests at `t = 0`, a call at `t = 30000` is
still denied, while a call at `t = 60001` is allowed. -/
theorem rateLimiter_window_spec_amended :
    ((runChecks (List.replicate 10 ((0 : Int), ("u", "c"))) rlInit).1.map
        (fun r => r.allowed)) = List.replicate 10 true ∧
    (check 0 "u" "c"
        (runChecks (List.replicate 10 ((0 : Int), ("u", "c"))) rlInit).2).1.allowed
      = false ∧
    (check 0 "u" "c"
        (runChecks (List.replicate 10 ((0 : Int), ("u", "c"))) rlInit).2).1.retryAfter
      = some 30 ∧
    (0 : Int) < 30 ∧
    (check 30000 "u" "c"
        (check 0 "u" "c"
          (runChecks (List.replicate 10 ((0 : Int), ("u", "c"))) rlInit).2).2).1.allowed
      = false ∧
    (check 60001 "u" "c"
        (check 0 "u" "c"
          (runChecks (List.replicate 10 ((0 : Int), ("u", "c"))) rlInit).2).2).1.allowed
      = true := by
  decide

/-- C10 counterexample: the block map is keyed by the actor alone, so the
two distinct keys `("u", "a")` and `("u", "b")` are not isolated: eleven
calls under `("u", "a")` block actor `"u"`, turning the verdict for
`("u", "b")` from allowed (in the untouched state) into denied. -/
theorem rateLimiter_isolation_counterexample :
    (check 0 "u" "b"
        (runChecks (List.replicate 11 ((0 : Int), ("u", "a"))) rlInit).2).1.allowed
      = false ∧
    (check 0 "u" "b" rlInit).1.allowed = true ∧
    (("u", "a") : String × String) ≠ ("u", "b") := by
  decide

/-- C10 amended: isolation holds between keys of distinct actors: a check
under a key of one actor never changes the verdict of a check under a key
of another actor.  (For two actions of the same actor the window state is
separate, but a block triggered under one action denies the other until it
expires, as the counterexample shows.) -/
theorem rateLimiter_isolation_spec_amended (s : RLState) (now now2 : Int)
    (u c u2 c2 : String) (h : u ≠ u2) :
    (check now2 u2 c2 (check now u c s).2).1 = (check now2 u2 c2 s).1 := by
  have h2 : u2 ≠ u := fun hc => h hc.symm
  rw [check_fst, check_fst]
  unfold checkFst
  rw [check_blocked_other now u c u2 s h2, check_userRequests_other now u c u2 c2 s h2]

/-- Witness for the amended C10 at concrete inputs: a check by actor `x`
leaves the verdict for actor `y` unchanged. -/
theorem rateLimiter_isolation_spec_amended_witness :
    (check 5 "y" "b" (check 0 "x" "a" rlInit).2).1 = (check 5 "y" "b" rlInit).1 :=
  rateLimiter_isolation_spec_amended rlInit 0 5 "x" "a" "y" "b" (by decide)

end DiscordBot
